import Mathlib

set_option maxRecDepth 100000

/-!
Verification of the sochdb-go memory subsystem: the consolidation engine
(`consolidator.go`) and the hybrid retrieval engine (`hybrid_retriever.go`),
shallowly embedded in Lean.  Strings are modelled byte-wise over their ASCII
code points (all identifiers, sources and facts exercised here are ASCII, so
this coincides with Go's UTF-8 byte view), Go `float64` arithmetic is
idealised as exact rational (and, where `math.Log` is involved, real)
arithmetic, and Go maps are modelled as association lists or update
functions, with iteration order made explicit as list order.
-/

namespace Sochdb

/-! ### Tokenizer (`tokenize` in hybrid_retriever.go) -/

/-- The punctuation characters stripped from token heads and tails:
`.,!?;:()[]{}"'` (given by ASCII code to keep the source cut-set verbatim). -/
def punctChars : List Char :=
  [46, 44, 33, 63, 59, 58, 40, 41, 91, 93, 123, 125, 34, 39].map Char.ofNat

/-- `strings.Trim(term, ".,!?;:()[]{}\"'")`: drop cut-set characters from both
ends of a token. -/
def trimPunct (s : String) : String :=
  let l := s.toList.dropWhile (fun c => punctChars.contains c)
  String.mk ((l.reverse.dropWhile (fun c => punctChars.contains c)).reverse)

/-- `tokenize`: lower-case, split on whitespace, trim punctuation, drop
empty tokens. -/
def tokenize (text : String) : List String :=
  (((text.toLower).split Char.isWhitespace).map trimPunct).filter
    (fun t => t ≠ "")

/-! ### Canonical JSON (Go `encoding/json` marshals maps with sorted keys) -/

/-- JSON-compatible fact values (the subset exercised by the consolidator:
facts are `map[string]interface{}` whose values here are strings, integers,
booleans or null). -/
inductive JsonVal where
  | str (s : String)
  | num (n : Int)
  | bool (b : Bool)
  | null
deriving DecidableEq, Repr

/-- A fact payload: a string-keyed JSON object, as an association list. -/
def Fact := List (String × JsonVal)
deriving DecidableEq, Repr

/-- JSON string quoting (the inputs used contain no characters needing
escapes beyond quote and backslash). -/
def jsonQuote (s : String) : String :=
  "\"" ++ String.mk (s.toList.flatMap (fun c =>
    if c = Char.ofNat 34 then [Char.ofNat 92, Char.ofNat 34]
    else if c = Char.ofNat 92 then [Char.ofNat 92, Char.ofNat 92]
    else [c])) ++ "\""

/-- Encode one JSON value. -/
def encodeJsonVal : JsonVal → String
  | .str s => jsonQuote s
  | .num n => toString n
  | .bool true => "true"
  | .bool false => "false"
  | .null => "null"

/-- Insertion sort of fact entries by key, ascending — Go's
`encoding/json` sorts map keys with `<` on strings. -/
def insortEntry (e : String × JsonVal) : List (String × JsonVal) →
    List (String × JsonVal)
  | [] => [e]
  | f :: rest =>
    if e.1 < f.1 then e :: f :: rest else f :: insortEntry e rest

/-- Sort fact entries by key ascending. -/
def sortEntries (f : Fact) : List (String × JsonVal) :=
  f.foldr insortEntry []

/-- Comma-join. -/
def joinComma : List String → String
  | [] => ""
  | [s] => s
  | s :: rest => s ++ "," ++ joinComma rest

/-- `canonical_json(fact)`: the byte string `json.Marshal` produces for a
`map[string]interface{}` — object keys sorted ascending, no insignificant
whitespace. -/
def canonJsonFact (f : Fact) : String :=
  "\x7b" ++ joinComma ((sortEntries f).map
    (fun e => jsonQuote e.1 ++ ":" ++ encodeJsonVal e.2)) ++ "\x7d"

/-- Byte view of an (ASCII) string. -/
def strBytes (s : String) : List Nat := s.toList.map Char.toNat

/-! ### SHA-256 over byte lists (crypto/sha256), words as `Nat` mod 2^32 -/

/-- Truncate to a 32-bit word. -/
def w32 (n : Nat) : Nat := n % 4294967296

/-- Rotate a 32-bit word right by `n`. -/
def rotr (n x : Nat) : Nat := w32 ((x >>> n) ||| (x <<< (32 - n)))

/-- SHA-256 round constants (FIPS 180-4, here as decimal `Nat`s). -/
def shaK : List Nat :=
  [1116352408, 1899447441, 3049323471, 3921009573, 961987163,
   1508970993, 2453635748, 2870763221, 3624381080, 310598401,
   607225278, 1426881987, 1925078388, 2162078206, 2614888103,
   3248222580, 3835390401, 4022224774, 264347078, 604807628,
   770255983, 1249150122, 1555081692, 1996064986, 2554220882,
   2821834349, 2952996808, 3210313671, 3336571891, 3584528711,
   113926993, 338241895, 666307205, 773529912, 1294757372,
   1396182291, 1695183700, 1986661051, 2177026350, 2456956037,
   2730485921, 2820302411, 3259730800, 3345764771, 3516065817,
   3600352804, 4094571909, 275423344, 430227734, 506948616,
   659060556, 883997877, 958139571, 1322822218, 1537002063,
   1747873779, 1955562222, 2024104815, 2227730452, 2361852424,
   2428436474, 2756734187, 3204031479, 3329325298]

/-- SHA-256 initial hash value (decimal). -/
def shaH0 : List Nat :=
  [1779033703, 3144134277, 1013904242, 2773480762,
   1359893119, 2600822924, 528734635, 1541459225]

/-- 8-byte big-endian encoding of `n`. -/
def bigEndian8 (n : Nat) : List Nat :=
  (List.range 8).map (fun i => (n >>> (56 - 8 * i)) % 256)

/-- SHA-256 padding: append `0x80`, zeros to 56 mod 64, then the bit length. -/
def shaPad (msg : List Nat) : List Nat :=
  let z := (120 - ((msg.length + 1) % 64)) % 64
  msg ++ [128] ++ List.replicate z 0 ++ bigEndian8 (8 * msg.length)

/-- Split a byte list into 64-byte chunks. -/
def chunks64 : List Nat → List (List Nat)
  | [] => []
  | a :: rest => ((a :: rest).take 64) :: chunks64 ((a :: rest).drop 64)
termination_by l => l.length
decreasing_by simp [List.length_drop]; omega

/-- Parse a 64-byte chunk into 16 big-endian 32-bit words. -/
def words16 (chunk : List Nat) : List Nat :=
  (List.range 16).map (fun j =>
    chunk.getD (4 * j) 0 * 16777216 + chunk.getD (4 * j + 1) 0 * 65536 +
    chunk.getD (4 * j + 2) 0 * 256 + chunk.getD (4 * j + 3) 0)

/-- Extend 16 words to the 64-word message schedule. -/
def msgSchedule (ws : List Nat) : Array Nat :=
  (List.range 48).foldl (fun w _ =>
    let i := w.size
    let s0 := (rotr 7 (w.getD (i - 15) 0)) ^^^ (rotr 18 (w.getD (i - 15) 0)) ^^^
      ((w.getD (i - 15) 0) >>> 3)
    let s1 := (rotr 17 (w.getD (i - 2) 0)) ^^^ (rotr 19 (w.getD (i - 2) 0)) ^^^
      ((w.getD (i - 2) 0) >>> 10)
    w.push (w32 (w.getD (i - 16) 0 + s0 + w.getD (i - 7) 0 + s1))) ws.toArray

/-- One SHA-256 compression step state: the working variables a..h. -/
structure ShaState where
  a : Nat
  b : Nat
  c : Nat
  d : Nat
  e : Nat
  f : Nat
  g : Nat
  h : Nat
deriving Repr

/-- Compress one 64-byte chunk into the running hash (8 words). -/
def shaCompress (hs : List Nat) (chunk : List Nat) : List Nat :=
  let w := msgSchedule (words16 chunk)
  let st0 : ShaState :=
    ⟨hs.getD 0 0, hs.getD 1 0, hs.getD 2 0, hs.getD 3 0,
     hs.getD 4 0, hs.getD 5 0, hs.getD 6 0, hs.getD 7 0⟩
  let stN := (List.range 64).foldl (fun st i =>
    let S1 := (rotr 6 st.e) ^^^ (rotr 11 st.e) ^^^ (rotr 25 st.e)
    let ch := (st.e &&& st.f) ^^^ ((st.e ^^^ 4294967295) &&& st.g)
    let temp1 := w32 (st.h + S1 + ch + shaK.getD i 0 + w.getD i 0)
    let S0 := (rotr 2 st.a) ^^^ (rotr 13 st.a) ^^^ (rotr 22 st.a)
    let maj := (st.a &&& st.b) ^^^ (st.a &&& st.c) ^^^ (st.b &&& st.c)
    let temp2 := w32 (S0 + maj)
    ⟨w32 (temp1 + temp2), st.a, st.b, st.c,
     w32 (st.d + temp1), st.e, st.f, st.g⟩) st0
  [w32 (hs.getD 0 0 + stN.a), w32 (hs.getD 1 0 + stN.b),
   w32 (hs.getD 2 0 + stN.c), w32 (hs.getD 3 0 + stN.d),
   w32 (hs.getD 4 0 + stN.e), w32 (hs.getD 5 0 + stN.f),
   w32 (hs.getD 6 0 + stN.g), w32 (hs.getD 7 0 + stN.h)]

/-- SHA-256 digest of a byte list, as 8 32-bit words. -/
def sha256 (msg : List Nat) : List Nat :=
  (chunks64 (shaPad msg)).foldl shaCompress shaH0

/-- Lower-case hex digit for a value below 16. -/
def hexDigit (n : Nat) : Char :=
  if n < 10 then Char.ofNat (48 + n) else Char.ofNat (87 + n)

/-- 8 hex characters of one 32-bit word, big-endian. -/
def wordHex (w : Nat) : List Char :=
  (List.range 8).map (fun j => hexDigit ((w >>> (28 - 4 * j)) % 16))

/-- Full 64-character hex digest. -/
def sha256hex (msg : List Nat) : String :=
  String.mk ((sha256 msg).flatMap wordHex)

/-! ### Consolidator data model (memory_types.go, consolidator.go) -/

/-- `RawAssertion`: an immutable assertion event.  `confidence` is a Go
`float64` in [0,1], idealised as a rational; `timestamp` is Unix seconds. -/
structure RawAssertion where
  id : String
  fact : Fact
  source : String
  confidence : ℚ
  timestamp : Int
deriving DecidableEq, Repr

/-- `CanonicalFact`: the derived consolidated view. -/
structure CanonicalFact where
  id : String
  mergedFact : Fact
  confidence : ℚ
  sources : List String
  validFrom : Int
  validUntil : Option Int := none
deriving DecidableEq, Repr

/-- A contradiction edge as read back from the KV store
(`map[string]interface{}` with `from`, `to`, `timestamp`); the timestamp is
`none` when the stored value does not decode through the `float64` cast. -/
structure Edge where
  fromID : String
  toID : String
  timestamp : Option Int
deriving DecidableEq, Repr

/-- `ConsolidationConfig`. -/
structure ConsolidationConfig where
  similarityThreshold : ℚ
  useTemporalUpdates : Bool
  maxConflictAge : Int
deriving DecidableEq, Repr

/-- The defaults installed by `NewConsolidator` when `config == nil`. -/
def defaultConsolidationConfig : ConsolidationConfig :=
  { similarityThreshold := 17/20, useTemporalUpdates := true,
    maxConflictAge := 86400 }

/-- `NewConsolidator`'s config resolution: the defaults are installed only
when the whole config is nil; a non-nil config is used verbatim. -/
def resolveConsolidationConfig : Option ConsolidationConfig →
    ConsolidationConfig
  | none => defaultConsolidationConfig
  | some c => c

/-- `generateAssertionID`: first 16 hex characters of SHA-256 over
`json.Marshal(fact) || source`. -/
def generateAssertionID (a : RawAssertion) : String :=
  (sha256hex (strBytes (canonJsonFact a.fact ++ a.source))).take 16

/-- `generateCanonicalID`: first 16 hex characters of SHA-256 over
`json.Marshal(fact)`. -/
def generateCanonicalID (a : RawAssertion) : String :=
  (sha256hex (strBytes (canonJsonFact a.fact))).take 16

/-- The assertion `Add` stores: missing id and timestamp are filled in
(`now` is the wall clock read by `Add`). -/
def addStored (now : Int) (a : RawAssertion) : RawAssertion :=
  { a with
    id := if a.id = "" then generateAssertionID a else a.id,
    timestamp := if a.timestamp = 0 then now else a.timestamp }

/-- `mergeConfidence`: weighted average with weights `1/(i+1)` over the
surviving contributors in rank order. -/
def mergeConfidence (as : List RawAssertion) : ℚ :=
  match as with
  | [] => 0
  | [a] => a.confidence
  | _ =>
    let pairs := as.enum
    ((pairs.map (fun p => p.2.confidence * (1 / ((p.1 : ℚ) + 1)))).sum) /
    ((pairs.map (fun p => (1 : ℚ) / ((p.1 : ℚ) + 1))).sum)

/-- The contradiction-filter loop body of `Consolidate`: scan the edge list
in order; on the FIRST edge whose `from` equals the assertion id, mark the
assertion contradicted, then (when temporal updates are on and the edge
timestamp decodes) clear the mark again if the edge is older than
`max_conflict_age`; then stop scanning (`break`). -/
def isContradicted (cfg : ConsolidationConfig) (now : Int) :
    List Edge → String → Bool
  | [], _ => false
  | e :: rest, aid =>
    if e.fromID = aid then
      if cfg.useTemporalUpdates then
        match e.timestamp with
        | some ts => if now - ts > cfg.maxConflictAge then false else true
        | none => true
      else true
    else isContradicted cfg now rest aid

/-- Whether the code treats a single edge as still in force when it is the
first match: active unless temporal updates are on, the timestamp decodes,
and the age exceeds `max_conflict_age`. -/
def edgeActiveCode (cfg : ConsolidationConfig) (now : Int) (e : Edge) :
    Bool :=
  if cfg.useTemporalUpdates then
    match e.timestamp with
    | some ts => decide (now - ts ≤ cfg.maxConflictAge)
    | none => true
  else true

/-- The `sort.Slice` comparator in `Consolidate`: confidence descending,
then timestamp descending.  (No further tiebreak exists in the source.) -/
def assertLess (a b : RawAssertion) : Bool :=
  if a.confidence ≠ b.confidence then decide (a.confidence > b.confidence)
  else decide (a.timestamp > b.timestamp)

/-- A possible outcome of Go's (unstable) `sort.Slice` with comparator
`assertLess`: a permutation of the input in which no later element is
strictly less-than an earlier one. -/
def SortOutcome (l out : List RawAssertion) : Prop :=
  l.Perm out ∧ out.Pairwise (fun x y => assertLess y x = false)

/-- Minimum of the contributors' timestamps (the source collects the
timestamps, sorts ascending and takes index 0). -/
def minTimestamp (v : RawAssertion) (vs : List RawAssertion) : Int :=
  vs.foldl (fun m a => min m a.timestamp) v.timestamp

/-- Consolidate one already-grouped, already-sorted contributor list:
filter the contradicted contributors and merge the survivors. -/
def consolidateGroup (cfg : ConsolidationConfig) (now : Int)
    (conts : List Edge) (sortedGroup : List RawAssertion) :
    Option CanonicalFact :=
  let valid := sortedGroup.filter
    (fun a => !(isContradicted cfg now conts a.id))
  match valid with
  | [] => none
  | v :: vs => some
    { id := generateCanonicalID v,
      mergedFact := v.fact,
      confidence := mergeConfidence (v :: vs),
      sources := (v :: vs).map (fun a => a.source),
      validFrom := minTimestamp v vs }

/-- `Consolidate`: group the assertions by the canonical JSON of their fact
(the Go map key), sort each group with the comparator, filter contradicted
contributors, and merge each non-empty remainder into a canonical fact.
Group iteration order is modelled as first-occurrence order of the group
key; the Go map order is arbitrary and no claim depends on it. -/
def consolidate (cfg : ConsolidationConfig) (now : Int)
    (assertions : List RawAssertion) (conts : List Edge) :
    List CanonicalFact :=
  let keys := (assertions.map (fun a => canonJsonFact a.fact)).dedup
  keys.filterMap (fun k =>
    let group := assertions.filter (fun a => canonJsonFact a.fact = k)
    consolidateGroup cfg now conts (group.mergeSort
      (fun a b => !(assertLess b a))))

/-- The provenance map returned by `Explain`. -/
structure Explanation where
  evidenceCount : Nat
  sources : List String
  confidence : ℚ
deriving DecidableEq, Repr

/-- `Explain(factID)`: a failing KV `Get` (for any reason) yields the
zero/empty sentinel with a nil error; after a successful read, a JSON
decode failure is propagated.  The KV read and the decoder are the two
external collaborators, passed as the outcome of `db.Get` and the
`json.Unmarshal` function. -/
def explain (getResult : Except String (List Nat))
    (decode : List Nat → Except String CanonicalFact) :
    Except String Explanation :=
  match getResult with
  | .error _ => .ok { evidenceCount := 0, sources := [], confidence := 0 }
  | .ok bytes =>
    match decode bytes with
    | .error e => .error e
    | .ok fact => .ok
      { evidenceCount := fact.sources.length,
        sources := fact.sources, confidence := fact.confidence }

/-! ### BM25 scorer (hybrid_retriever.go) -/

/-- The in-memory BM25 state.  The Go maps `termDocFreq` and
`documentLengths` are modelled as update functions (absent key ↦ zero
value resp. `none`); `documents` is the replaced-wholesale document map,
as an association list in iteration order. -/
structure BM25Scorer where
  k1 : ℚ
  b : ℚ
  documentCount : Nat
  avgDocLength : ℚ
  termDocFreq : String → Nat
  documentLengths : String → Option Nat
  documents : List (String × String)

/-- `NewBM25Scorer`: empty maps, zero statistics. -/
def newBM25Scorer (k1 b : ℚ) : BM25Scorer :=
  { k1 := k1, b := b, documentCount := 0, avgDocLength := 0,
    termDocFreq := fun _ => 0, documentLengths := fun _ => none,
    documents := [] }

/-- The `seen`-guarded inner loop of `IndexDocuments`: bump the document
frequency of each term of one document at most once. -/
def bumpTerms (df : String → Nat) (seen : List String) :
    List String → (String → Nat)
  | [] => df
  | t :: rest =>
    if t ∈ seen then bumpTerms df seen rest
    else bumpTerms (fun x => if x = t then df t + 1 else df x) (t :: seen)
      rest

/-- One iteration of the `IndexDocuments` loop: record the document's
token length, bump the document frequencies of its unique terms, add its
token count to the running total. -/
def indexStep (st : BM25Scorer × Nat) (d : String × String) :
    BM25Scorer × Nat :=
  let terms := tokenize d.2
  ({ st.1 with
      documentLengths := fun x =>
        if x = d.1 then some terms.length else st.1.documentLengths x,
      termDocFreq := bumpTerms st.1.termDocFreq [] terms },
   st.2 + terms.length)

/-- `BM25Scorer.IndexDocuments`: replace the document map and count, then
FOR EACH new document record its token length and bump the document
frequency of its unique terms — without resetting `termDocFreq` or
`documentLengths` — and finally recompute the average length from the new
count and the new documents' total token count. -/
def indexDocuments (bm : BM25Scorer) (docs : List (String × String)) :
    BM25Scorer :=
  let bm0 := { bm with documents := docs, documentCount := docs.length }
  let step := docs.foldl indexStep (bm0, 0)
  if 0 < step.1.documentCount then
    { step.1 with
      avgDocLength := (step.2 : ℚ) / (step.1.documentCount : ℚ) }
  else step.1

/-- The scorer obtained by one `IndexDocuments` call on a fresh scorer —
the from-scratch rebuild the specification describes. -/
def rebuiltScorer (k1 b : ℚ) (docs : List (String × String)) : BM25Scorer :=
  indexDocuments (newBM25Scorer k1 b) docs

/-- First-match association-list lookup (`bm.documents[docID]`). -/
def lookupDoc (l : List (String × String)) (k : String) : Option String :=
  (l.find? (fun p => p.1 == k)).map (fun p => p.2)

/-- One term's contribution inside `Score`: skip terms with zero document
frequency, otherwise `idf · tf·(k1+1) / (tf + k1·(1−b+b·|d|/avg))` with
`idf = ln((N−df+0.5)/(df+0.5)+1)` (Go `math.Log` idealised as `Real.log`;
the rational subexpressions are computed exactly). -/
noncomputable def scoreTerm (bm : BM25Scorer) (termFreqs : String → Nat)
    (docLength : ℚ) (t : String) : ℝ :=
  let tf : ℚ := (termFreqs t : ℚ)
  let df : ℚ := (bm.termDocFreq t : ℚ)
  if df = 0 then 0
  else
    Real.log ((((bm.documentCount : ℚ) - df + 1/2) / (df + 1/2) + 1 : ℚ) : ℝ) *
      (((tf * (bm.k1 + 1)) /
        (tf + bm.k1 * (1 - bm.b + bm.b * (docLength / bm.avgDocLength))) :
        ℚ) : ℝ)

/-- `BM25Scorer.Score`: zero for unknown documents, otherwise the sum of
the per-query-token contributions (query tokens in order, duplicates
contributing separately, exactly as the Go loop does). -/
noncomputable def score (bm : BM25Scorer) (query docID : String) : ℝ :=
  match lookupDoc bm.documents docID with
  | none => 0
  | some docText =>
    let docTerms := tokenize docText
    let termFreqs := fun t => docTerms.count t
    let docLength : ℚ := ((bm.documentLengths docID).getD 0 : ℚ)
    ((tokenize query).map (scoreTerm bm termFreqs docLength)).sum

/-! ### Hybrid retriever (hybrid_retriever.go) -/

/-- `RetrievalConfig`. -/
structure RetrievalConfig where
  limit : Int
  lexicalWeight : ℚ
  semanticWeight : ℚ
  rrfConstant : Int
  prefilterRatio : ℚ
  usePrefiltering : Bool
deriving DecidableEq, Repr

/-- The defaults installed by `NewHybridRetriever` when `config == nil`. -/
def defaultRetrievalConfig : RetrievalConfig :=
  { limit := 10, lexicalWeight := 3/10, semanticWeight := 7/10,
    rrfConstant := 60, prefilterRatio := 3, usePrefiltering := true }

/-- `NewHybridRetriever`'s config resolution: the defaults are installed
only when the whole config is nil; a non-nil config is used verbatim. -/
def resolveRetrievalConfig : Option RetrievalConfig → RetrievalConfig
  | none => defaultRetrievalConfig
  | some c => c

/-- `rankScores`: sort ids by score descending (Go's unstable `sort.Slice`
modelled by `mergeSort` — one admissible outcome; ties in the claims are
excluded by distinctness hypotheses) and assign 1-based ranks by position.
A lookup of an id that received no rank yields the Go map zero value 0. -/
def rankScores (scores : List (String × ℚ)) : String → Nat :=
  let sorted := scores.mergeSort (fun a b => decide (b.2 ≤ a.2))
  fun id =>
    match sorted.findIdx? (fun p => p.1 == id) with
    | some i => i + 1
    | none => 0

/-- `reciprocalRankFusion`: for each id of either stream, combine
`lexical_weight/(k + rank_L) + semantic_weight/(k + rank_S)` (the weight
multiplies the reciprocal-rank term); ids outside both streams read the
Go map zero value 0. -/
def rrfCombined (lw sw : ℚ) (k : Int) (lex sem : List (String × ℚ)) :
    String → ℚ :=
  let lexRanks := rankScores lex
  let semRanks := rankScores sem
  fun id =>
    if lex.any (fun p => p.1 == id) || sem.any (fun p => p.1 == id) then
      lw / ((k : ℚ) + (lexRanks id : ℚ)) +
        sw / ((k : ℚ) + (semRanks id : ℚ))
    else 0

/-- A stored retrieval document: its id (stamped onto the record by the
prefix scan) and its optional `text` field; further metadata is only ever
passed opaquely to the pre-filter, which here receives the whole record. -/
structure Doc where
  id : String
  text : Option String
deriving DecidableEq, Repr

/-- `HybridRetriever.Retrieve`, with the two score streams (BM25 and the
cosine placeholder — a pluggable capability per the source) passed as
functions: pre-filter by `allowed`, return empty on an empty survivor
set, score both streams (the semantic stream only covers documents whose
`text` field is present), fuse with RRF, sort by combined score
descending and truncate to `limit`. -/
def retrieveCore (cfg : RetrievalConfig) (docs : List Doc)
    (allowed : Doc → Bool) (lexF semF : Doc → ℚ) : List (Doc × ℚ) :=
  let filtered := docs.filter allowed
  if filtered.isEmpty then []
  else
    let lexical := filtered.map (fun d => (d.id, lexF d))
    let semantic := filtered.filterMap
      (fun d => (d.text).map (fun _ => (d.id, semF d)))
    let combined := rrfCombined cfg.lexicalWeight cfg.semanticWeight
      cfg.rrfConstant lexical semantic
    let scored := filtered.map (fun d => (d, combined d.id))
    let sorted := scored.mergeSort (fun a b => decide (b.2 ≤ a.2))
    sorted.take (min cfg.limit.toNat sorted.length)

/-! ### Specification-side definitions (the claims' formulas, written
independently of the imperative code, for the refinement statements) -/

/-- `mergeConfidence` restated over the bare confidence list (the code
reads nothing but `assertion.Confidence` from the contributors). -/
def mergeConfidenceVals (cs : List ℚ) : ℚ :=
  match cs with
  | [] => 0
  | [c] => c
  | _ =>
    ((cs.enum.map (fun p => p.2 * (1 / ((p.1 : ℚ) + 1)))).sum) /
    ((cs.enum.map (fun p => (1 : ℚ) / ((p.1 : ℚ) + 1))).sum)

/-- Spec-side document frequency: the number of currently indexed
documents whose token list contains `t`. -/
def dfSpec (docs : List (String × String)) (t : String) : Nat :=
  docs.countP (fun d => decide (t ∈ tokenize d.2))

/-- Spec-side average document length: total token count over document
count. -/
def avgSpec (docs : List (String × String)) : ℚ :=
  ((docs.map (fun d => (tokenize d.2).length)).sum : ℚ) / (docs.length : ℚ)

/-- The claim's BM25 term contribution for a document with text `txt`
against corpus `docs`, with `k1 = 1.5`, `b = 0.75`:
`idf(t) · tf·(k1+1) / (tf + k1·(1 − b + b·|d|/avg))` where
`idf(t) = ln((N − df + 0.5)/(df + 0.5) + 1)`. -/
noncomputable def specContrib (docs : List (String × String))
    (txt : String) (t : String) : ℝ :=
  let N : ℝ := (docs.length : ℝ)
  let df : ℝ := (dfSpec docs t : ℝ)
  let tf : ℝ := ((tokenize txt).count t : ℝ)
  let dl : ℝ := ((tokenize txt).length : ℝ)
  Real.log ((N - df + 1/2) / (df + 1/2) + 1) *
    ((tf * (3/2 + 1)) /
      (tf + (3/2) * (1 - 3/4 + (3/4) * (dl / ((avgSpec docs : ℚ) : ℝ)))))

/-! ### Concrete fixtures used by witnesses and counterexamples -/

/-- Fixture fact `{"claim":"works at TechCorp","subject":"Alice"}`. -/
def factAlice : Fact :=
  [("subject", .str "Alice"), ("claim", .str "works at TechCorp")]

/-- Fixture assertion with an empty id (to be filled in by `Add`). -/
def c1assert : RawAssertion :=
  { id := "", fact := factAlice, source := "linkedin",
    confidence := 95/100, timestamp := 100 }

/-- Contradiction-edge fixture: two edges with the same `from`; the first
(in scan order) is long expired, the second is fresh. -/
def c2edges : List Edge :=
  [{ fromID := "a1", toID := "b", timestamp := some 0 },
   { fromID := "a1", toID := "c", timestamp := some 1000000 }]

/-- Consolidation-config fixture with a tight conflict window. -/
def c2cfg : ConsolidationConfig :=
  { similarityThreshold := 17/20, useTemporalUpdates := true,
    maxConflictAge := 100 }

/-- Scenario A contributors: confidences 0.95, 0.90, 0.85 in rank order. -/
def c4list : List RawAssertion :=
  [{ id := "i1", fact := factAlice, source := "linkedin",
     confidence := 95/100, timestamp := 100 },
   { id := "i2", fact := factAlice, source := "website",
     confidence := 90/100, timestamp := 101 },
   { id := "i3", fact := factAlice, source := "github",
     confidence := 85/100, timestamp := 102 }]

/-- Tie fixture: equal confidence and timestamp, distinct ids/sources. -/
def c5a : RawAssertion :=
  { id := "a1", fact := factAlice, source := "s1",
    confidence := 1/2, timestamp := 5 }

/-- Second half of the tie fixture; `c5a.id < c5b.id`. -/
def c5b : RawAssertion :=
  { id := "a2", fact := factAlice, source := "s2",
    confidence := 1/2, timestamp := 5 }

/-- Scenario E lexical stream: ranks `d1, d2, d3`. -/
def c7lex : List (String × ℚ) := [("d1", 3), ("d2", 2), ("d3", 1)]

/-- Scenario E semantic stream: ranks `d3, d2, d1`. -/
def c7sem : List (String × ℚ) := [("d1", 1), ("d2", 2), ("d3", 3)]

/-- Scenario E documents. -/
def c7docs : List Doc :=
  [{ id := "d1", text := some "x" }, { id := "d2", text := some "y" },
   { id := "d3", text := some "z" }]

/-- Scenario E lexical score function. -/
def c7lexF : Doc → ℚ :=
  fun d => if d.id = "d1" then 3 else if d.id = "d2" then 2 else 1

/-- Scenario E semantic score function. -/
def c7semF : Doc → ℚ :=
  fun d => if d.id = "d1" then 1 else if d.id = "d2" then 2 else 3

/-- Scenario E retrieval config: weights 0.5/0.5, `k = 60`. -/
def c7cfg : RetrievalConfig :=
  { defaultRetrievalConfig with
    lexicalWeight := 1/2,
    semanticWeight := 1/2 }

/-- A non-nil retrieval config that sets only `lexical_weight`, leaving
every other field at its Go zero value. -/
def c9cfg : RetrievalConfig :=
  { limit := 0, lexicalWeight := 3/10, semanticWeight := 0,
    rrfConstant := 0, prefilterRatio := 0, usePrefiltering := false }

/-- The canonical fact Scenario A's three corroborating assertions
consolidate to (id = first 16 hex chars of SHA-256 over the canonical
JSON of `factAlice`). -/
def c1canon : CanonicalFact :=
  { id := "dd9838bd92560123", mergedFact := factAlice,
    confidence := 101/110,
    sources := ["linkedin", "website", "github"], validFrom := 100 }

/-! ## Theorems -/

/-- C2 (counterexample): with two contradiction edges sharing
`from = "a1"` — the first long expired, the second fresh — the
consolidation filter does NOT exclude `"a1"` (it `break`s on the first
matching edge), even though an active edge with `from = "a1"` exists;
the group containing only that assertion still emits a canonical fact
with `"a1"`'s source.  This refutes "excluded iff there exists an active
edge with from = a.id ... regardless of how many other (e.g. expired)
edges with the same from field are also present". -/
theorem c2_filter_counterexample :
    isContradicted c2cfg 1000000 c2edges "a1" = false ∧
    c2edges.any
      (fun e => e.fromID == "a1" && edgeActiveCode c2cfg 1000000 e) =
      true ∧
    (consolidateGroup c2cfg 1000000 c2edges [c5a]).map
      (fun cf => cf.sources) = some ["s1"] := by
  refine ⟨by decide, by decide, ?_⟩
  rfl

/-- Unfolding of the contradiction-filter loop at a cons cell: the head
edge decides when its `from` matches, otherwise the scan continues. -/
theorem isContradicted_cons (cfg : ConsolidationConfig) (now : Int)
    (e : Edge) (rest : List Edge) (aid : String) :
    isContradicted cfg now (e :: rest) aid =
      if e.fromID = aid then edgeActiveCode cfg now e
      else isContradicted cfg now rest aid := by
  by_cases h : e.fromID = aid
  · cases hu : cfg.useTemporalUpdates
    · simp [isContradicted, edgeActiveCode, h, hu]
    · cases hts : e.timestamp with
      | none => simp [isContradicted, edgeActiveCode, h, hu, hts]
      | some ts =>
        by_cases hage : now - ts > cfg.maxConflictAge
        · have hd : decide (now - ts ≤ cfg.maxConflictAge) = false := by
            simp only [decide_eq_false_iff_not]; omega
          simp [isContradicted, edgeActiveCode, h, hu, hts, hage, hd]
          omega
        · have hd : decide (now - ts ≤ cfg.maxConflictAge) = true := by
            simp only [decide_eq_true_eq]; omega
          simp [isContradicted, edgeActiveCode, h, hu, hts, hage, hd]
          omega
  · simp [isContradicted, h]

/-- C2 (amended): a contributor is excluded iff the FIRST edge in the
contradiction list whose `from` field equals its id exists and is still
in force (not the case that temporal updates are on, the edge timestamp
decodes, and its age exceeds `max_conflict_age`).  Edges whose `to`
field equals the id are never consulted (`find?` inspects only `from`),
and edges after the first match — active or not — are ignored. -/
theorem c2_first_matching_edge_decides (cfg : ConsolidationConfig)
    (now : Int) (conts : List Edge) (aid : String) :
    isContradicted cfg now conts aid =
      ((conts.find? (fun e => e.fromID == aid)).map
        (edgeActiveCode cfg now)).getD false := by
  induction conts with
  | nil => rfl
  | cons e rest ih =>
    rw [isContradicted_cons]
    by_cases h : e.fromID = aid
    · have hb : (e.fromID == aid) = true := by simpa using h
      rw [if_pos h]
      simp only [List.find?_cons, hb]
      rfl
    · have hb : (e.fromID == aid) = false := by simpa using h
      rw [if_neg h]
      simp only [List.find?_cons, hb]
      exact ih

/-- C9 (counterexample): a non-nil retrieval config that sets only
`lexical_weight` is used verbatim by `NewHybridRetriever`; `limit` stays
0 (not the documented default 10) and `rrf_constant` stays 0 (not 60).
This refutes field-wise defaulting of omitted fields. -/
theorem c9_counterexample :
    (resolveRetrievalConfig (some c9cfg)).limit = 0 ∧
    ((0 : Int) ≠ 10) ∧
    (resolveRetrievalConfig (some c9cfg)).rrfConstant = 0 ∧
    ((0 : Int) ≠ 60) := by
  refine ⟨rfl, by decide, rfl, by decide⟩

/-- C9 (amended): the documented defaults (`limit` 10, `lexical_weight`
0.3, `semantic_weight` 0.7, `rrf_constant` 60, `prefilter_ratio` 3.0,
`use_prefiltering` true; for consolidation 0.85/true/86400) are applied
only when the configuration as a whole is omitted (nil); any non-nil
configuration is adopted verbatim, its unset fields keeping their zero
values. -/
theorem c9_defaults_only_when_nil :
    resolveRetrievalConfig none = defaultRetrievalConfig ∧
    (∀ c, resolveRetrievalConfig (some c) = c) ∧
    resolveConsolidationConfig none = defaultConsolidationConfig ∧
    (∀ c, resolveConsolidationConfig (some c) = c) :=
  ⟨rfl, fun _ => rfl, rfl, fun _ => rfl⟩

/-- Sum of an enumerated map as a `Finset.range` sum. -/
theorem sum_enumFrom_eq {α : Type} (f : Nat → α → ℚ) (d : α) :
    ∀ (l : List α) (k : Nat),
      ((l.enumFrom k).map (fun p => f p.1 p.2)).sum =
      ∑ i ∈ Finset.range l.length, f (k + i) (l.getD i d) := by
  intro l
  induction l with
  | nil => intro k; simp
  | cons c t ih =>
    intro k
    simp only [List.enumFrom, List.map_cons, List.sum_cons, List.length_cons]
    rw [Finset.sum_range_succ', ih (k + 1)]
    have hcongr : ∀ i ∈ Finset.range t.length,
        f (k + (i + 1)) ((c :: t).getD (i + 1) d) = f (k + 1 + i) (t.getD i d) := by
      intro i _
      rw [List.getD_cons_succ, show k + (i + 1) = k + 1 + i by omega]
    rw [Finset.sum_congr rfl hcongr]
    simp [add_comm]

/-- `mergeConfidence` reads only the confidences of its contributors. -/
theorem mergeConfidence_eq_vals (as : List RawAssertion) :
    mergeConfidence as =
      mergeConfidenceVals (as.map (fun a => a.confidence)) := by
  have key1 : ∀ (l : List RawAssertion),
      ((l.map (fun a => a.confidence)).enum.map
        (fun p => p.2 * (1 / ((p.1 : ℚ) + 1)))).sum =
      (l.enum.map (fun p => p.2.confidence * (1 / ((p.1 : ℚ) + 1)))).sum := by
    intro l
    rw [List.enum_map, List.map_map]
    rfl
  have key2 : ∀ (l : List RawAssertion),
      ((l.map (fun a => a.confidence)).enum.map
        (fun p => (1 : ℚ) / ((p.1 : ℚ) + 1))).sum =
      (l.enum.map (fun p => (1 : ℚ) / ((p.1 : ℚ) + 1))).sum := by
    intro l
    rw [List.enum_map, List.map_map]
    rfl
  match as with
  | [] => rfl
  | [a] => rfl
  | a :: b :: t =>
    simp only [mergeConfidence, mergeConfidenceVals, List.map_cons]
    rw [← List.map_cons, ← List.map_cons, key1, key2]

/-- The weighted mean, stated over the bare confidence list. -/
theorem mergeConfidenceVals_formula (cs : List ℚ) (h : cs ≠ []) :
    mergeConfidenceVals cs =
      (∑ i ∈ Finset.range cs.length, cs.getD i 0 / ((i : ℚ) + 1)) /
      (∑ i ∈ Finset.range cs.length, 1 / ((i : ℚ) + 1)) := by
  match cs with
  | [] => exact absurd rfl h
  | [c] =>
    simp [mergeConfidenceVals, Finset.sum_range_one]
  | c1 :: c2 :: t =>
    simp only [mergeConfidenceVals, List.enum]
    rw [sum_enumFrom_eq (fun i c => c * (1 / ((i : ℚ) + 1))) 0 (c1 :: c2 :: t) 0,
      sum_enumFrom_eq (fun i _ => (1 : ℚ) / ((i : ℚ) + 1)) 0 (c1 :: c2 :: t) 0]
    simp [div_eq_mul_inv]

/-- C4: for any non-empty contributor list the merged confidence equals
`(Σ c_i/(i+1)) / (Σ 1/(i+1))` over the confidences in rank order; in
particular it equals `c_0` for a single contributor, and for confidences
0.95, 0.90, 0.85 it equals `(0.95/1 + 0.90/2 + 0.85/3)/(1 + 1/2 + 1/3)`. -/
theorem c4_confidence_weighted_mean :
    (∀ (as : List RawAssertion), as ≠ [] →
      mergeConfidence as =
        (∑ i ∈ Finset.range as.length,
          (as.map (fun a => a.confidence)).getD i 0 / ((i : ℚ) + 1)) /
        (∑ i ∈ Finset.range as.length, 1 / ((i : ℚ) + 1))) ∧
    (∀ a : RawAssertion, mergeConfidence [a] = a.confidence) ∧
    mergeConfidence c4list =
      ((95/100 : ℚ) / 1 + (90/100) / 2 + (85/100) / 3) /
        (1 + 1/2 + 1/3) := by
  refine ⟨?_, fun a => rfl, by with_unfolding_all decide⟩
  intro as h
  rw [mergeConfidence_eq_vals,
    mergeConfidenceVals_formula (as.map (fun a => a.confidence))
      (by simpa using h)]
  simp

/-- Witness for C4 at Scenario A's three contributors. -/
theorem c4_confidence_weighted_mean_witness :
    c4list ≠ [] ∧
    mergeConfidence c4list =
      (∑ i ∈ Finset.range c4list.length,
        (c4list.map (fun a => a.confidence)).getD i 0 / ((i : ℚ) + 1)) /
      (∑ i ∈ Finset.range c4list.length, 1 / ((i : ℚ) + 1)) :=
  ⟨by decide, c4_confidence_weighted_mean.1 c4list (by decide)⟩

/-- The pair-descending order underlying the consolidation comparator. -/
def keyDesc (p q : ℚ × Int) : Prop :=
  q.1 < p.1 ∨ (q.1 = p.1 ∧ q.2 ≤ p.2)

instance : IsAntisymm (ℚ × Int) keyDesc where
  antisymm := by
    rintro ⟨pa, pb⟩ ⟨qa, qb⟩ (h1 | ⟨h1, h1b⟩) (h2 | ⟨h2, h2b⟩)
    · exact absurd h2 (lt_asymm h1)
    · exact absurd h2 (ne_of_gt h1)
    · exact absurd h1 (ne_of_gt h2)
    · simp only [Prod.mk.injEq]
      exact ⟨h1.symm, le_antisymm h2b h1b⟩

/-- A non-less-than verdict of the comparator orders the (confidence,
timestamp) keys descending. -/
theorem assertLess_false_keyDesc {x y : RawAssertion}
    (h : assertLess y x = false) :
    keyDesc (x.confidence, x.timestamp) (y.confidence, y.timestamp) := by
  unfold assertLess at h
  by_cases hc : y.confidence = x.confidence
  · rw [if_neg (by simp [hc])] at h
    right
    have hts : ¬ (y.timestamp > x.timestamp) := of_decide_eq_false h
    exact ⟨hc, not_lt.mp hts⟩
  · rw [if_pos hc] at h
    left
    have hle : ¬ (y.confidence > x.confidence) := of_decide_eq_false h
    exact lt_of_le_of_ne (not_lt.mp hle) hc

/-- Any two admissible outcomes of the in-group sort agree on the
(confidence, timestamp) key sequence. -/
theorem sortOutcome_key_eq {l out1 out2 : List RawAssertion}
    (h1 : SortOutcome l out1) (h2 : SortOutcome l out2) :
    out1.map (fun a => (a.confidence, a.timestamp)) =
      out2.map (fun a => (a.confidence, a.timestamp)) := by
  have hperm : (out1.map (fun a => (a.confidence, a.timestamp))).Perm
      (out2.map (fun a => (a.confidence, a.timestamp))) :=
    (h1.1.symm.trans h2.1).map _
  have hsort1 : List.Sorted keyDesc
      (out1.map (fun a => (a.confidence, a.timestamp))) := by
    rw [List.Sorted, List.pairwise_map]
    exact h1.2.imp (fun h => assertLess_false_keyDesc h)
  have hsort2 : List.Sorted keyDesc
      (out2.map (fun a => (a.confidence, a.timestamp))) := by
    rw [List.Sorted, List.pairwise_map]
    exact h2.2.imp (fun h => assertLess_false_keyDesc h)
  exact List.eq_of_perm_of_sorted hperm hsort1 hsort2

/-- C5 (counterexample): two assertions with equal confidence and equal
timestamp but distinct ids and sources.  Both orders are admissible
outcomes of `sort.Slice` with the source's comparator — the comparator
has no id tiebreak (`c5a.id < c5b.id` notwithstanding) — and the two
orders yield different `sources` lists.  This refutes "breaks any
remaining ties by assertion id ascending, so ... the sources list
order ... is uniquely determined". -/
theorem c5_counterexample :
    SortOutcome [c5a, c5b] [c5a, c5b] ∧
    SortOutcome [c5a, c5b] [c5b, c5a] ∧
    c5a.id < c5b.id ∧
    [c5a, c5b].map (fun a => a.source) ≠
      [c5b, c5a].map (fun a => a.source) := by
  refine ⟨⟨List.Perm.refl _, ?_⟩, ⟨List.Perm.swap _ _ _, ?_⟩, ?_, ?_⟩
  · have : assertLess c5b c5a = false := by
      with_unfolding_all decide
    simp [this]
  · have : assertLess c5a c5b = false := by
      with_unfolding_all decide
    simp [this]
  · with_unfolding_all decide
  · decide

/-- C5 (amended): the comparator orders contributors by confidence
descending then timestamp descending only; remaining ties are NOT broken
by id, so the contributor ranking is determined only up to ties.  Still,
any two admissible sort outcomes of the same group agree on the
(confidence, timestamp) sequence, hence on the merged confidence, on the
timestamp sequence (so on `valid_from`), and — when the group shares one
fact payload, as consolidation groups do — on the head's fact
(`merged_fact`).  Only the `sources` list order may differ. -/
theorem c5_sort_determines_merge {l out1 out2 : List RawAssertion}
    {f : Fact} (hf : ∀ a ∈ l, a.fact = f)
    (h1 : SortOutcome l out1) (h2 : SortOutcome l out2) :
    out1.map (fun a => (a.confidence, a.timestamp)) =
      out2.map (fun a => (a.confidence, a.timestamp)) ∧
    mergeConfidence out1 = mergeConfidence out2 ∧
    out1.map (fun a => a.timestamp) = out2.map (fun a => a.timestamp) ∧
    (out1.head?).map (fun a => a.fact) =
      (out2.head?).map (fun a => a.fact) := by
  have hkeys := sortOutcome_key_eq h1 h2
  have hconf : out1.map (fun a => a.confidence) =
      out2.map (fun a => a.confidence) := by
    have := congrArg (List.map Prod.fst) hkeys
    simpa [List.map_map, Function.comp] using this
  refine ⟨hkeys, ?_, ?_, ?_⟩
  · rw [mergeConfidence_eq_vals, mergeConfidence_eq_vals, hconf]
  · have := congrArg (List.map Prod.snd) hkeys
    simpa [List.map_map, Function.comp] using this
  · cases l with
    | nil =>
      have e1 : out1 = [] := h1.1.symm.eq_nil
      have e2 : out2 = [] := h2.1.symm.eq_nil
      rw [e1, e2]
    | cons x xs =>
      cases out1 with
      | nil => exact absurd h1.1.length_eq (by simp)
      | cons y1 ys1 =>
        cases out2 with
        | nil => exact absurd h2.1.length_eq (by simp)
        | cons y2 ys2 =>
          have hy1 : y1.fact = f :=
            hf y1 (h1.1.symm.subset (List.mem_cons_self y1 ys1))
          have hy2 : y2.fact = f :=
            hf y2 (h2.1.symm.subset (List.mem_cons_self y2 ys2))
          simp [hy1, hy2]

/-- The `seen`-guarded loop bumps a term's document frequency exactly
once per document containing it. -/
theorem bumpTerms_apply (df : String → Nat) (seen : List String)
    (terms : List String) (t : String) :
    bumpTerms df seen terms t =
      df t + (if t ∈ terms ∧ t ∉ seen then 1 else 0) := by
  induction terms generalizing df seen with
  | nil => simp [bumpTerms]
  | cons u rest ih =>
    simp only [bumpTerms]
    by_cases hu : u ∈ seen
    · rw [if_pos hu, ih]
      by_cases ht : t = u
      · subst ht
        simp [hu]
      · simp [ht, List.mem_cons]
    · rw [if_neg hu, ih]
      by_cases ht : t = u
      · subst ht
        simp [hu]
      · simp [ht, List.mem_cons]

/-- Folding the indexing step only adds per-document counts to the term
document frequencies. -/
theorem foldIndex_termDocFreq (docs : List (String × String)) :
    ∀ (st : BM25Scorer × Nat) (t : String),
      ((docs.foldl indexStep st).1).termDocFreq t =
        st.1.termDocFreq t +
          docs.countP (fun d => decide (t ∈ tokenize d.2)) := by
  induction docs with
  | nil => intro st t; simp
  | cons d rest ih =>
    intro st t
    rw [List.foldl_cons, ih, List.countP_cons]
    have hstep : (indexStep st d).1.termDocFreq t =
        st.1.termDocFreq t +
          (if t ∈ tokenize d.2 then 1 else 0) := by
      show bumpTerms st.1.termDocFreq [] (tokenize d.2) t = _
      rw [bumpTerms_apply]
      simp
    rw [hstep]
    by_cases hmem : t ∈ tokenize d.2 <;> simp [hmem]
    omega

/-- The running token total accumulated by the fold. -/
theorem foldIndex_snd (docs : List (String × String)) :
    ∀ (st : BM25Scorer × Nat),
      (docs.foldl indexStep st).2 =
        st.2 + (docs.map (fun d => (tokenize d.2).length)).sum := by
  induction docs with
  | nil => intro st; simp
  | cons d rest ih =>
    intro st
    rw [List.foldl_cons, ih]
    show st.2 + (tokenize d.2).length + _ = _
    simp [add_assoc]

/-- The fold leaves the document count untouched. -/
theorem foldIndex_documentCount (docs : List (String × String)) :
    ∀ (st : BM25Scorer × Nat),
      (docs.foldl indexStep st).1.documentCount = st.1.documentCount := by
  induction docs with
  | nil => intro st; rfl
  | cons d rest ih => intro st; rw [List.foldl_cons]; exact ih (indexStep st d)

/-- The fold leaves the document map untouched. -/
theorem foldIndex_documents (docs : List (String × String)) :
    ∀ (st : BM25Scorer × Nat),
      (docs.foldl indexStep st).1.documents = st.1.documents := by
  induction docs with
  | nil => intro st; rfl
  | cons d rest ih => intro st; rw [List.foldl_cons]; exact ih (indexStep st d)

/-- The fold leaves `k1` untouched. -/
theorem foldIndex_k1 (docs : List (String × String)) :
    ∀ (st : BM25Scorer × Nat),
      (docs.foldl indexStep st).1.k1 = st.1.k1 := by
  induction docs with
  | nil => intro st; rfl
  | cons d rest ih => intro st; rw [List.foldl_cons]; exact ih (indexStep st d)

/-- The fold leaves `b` untouched. -/
theorem foldIndex_b (docs : List (String × String)) :
    ∀ (st : BM25Scorer × Nat),
      (docs.foldl indexStep st).1.b = st.1.b := by
  induction docs with
  | nil => intro st; rfl
  | cons d rest ih => intro st; rw [List.foldl_cons]; exact ih (indexStep st d)

/-- The fold leaves the average length untouched (it is recomputed only
after the loop). -/
theorem foldIndex_avgDocLength (docs : List (String × String)) :
    ∀ (st : BM25Scorer × Nat),
      (docs.foldl indexStep st).1.avgDocLength = st.1.avgDocLength := by
  induction docs with
  | nil => intro st; rfl
  | cons d rest ih => intro st; rw [List.foldl_cons]; exact ih (indexStep st d)

/-- Keys not written by the fold keep their stored length. -/
theorem foldIndex_lengths_notmem (docs : List (String × String)) :
    ∀ (st : BM25Scorer × Nat) (x : String), x ∉ docs.map Prod.fst →
      (docs.foldl indexStep st).1.documentLengths x =
        st.1.documentLengths x := by
  induction docs with
  | nil => intro st x _; rfl
  | cons d rest ih =>
    intro st x hx
    rw [List.foldl_cons, ih (indexStep st d) x (by simp at hx; simp [hx])]
    show (if x = d.1 then _ else _) = _
    rw [if_neg (by simp at hx; exact hx.1)]

/-- With pairwise-distinct keys, each indexed document's token length is
recorded. -/
theorem foldIndex_lengths_mem (docs : List (String × String)) :
    ∀ (st : BM25Scorer × Nat) (id txt : String),
      (docs.map Prod.fst).Nodup → (id, txt) ∈ docs →
      (docs.foldl indexStep st).1.documentLengths id =
        some (tokenize txt).length := by
  induction docs with
  | nil => intro st id txt _ h; simp at h
  | cons d rest ih =>
    intro st id txt hnd hmem
    rw [List.foldl_cons]
    have hnd2 : d.1 ∉ rest.map Prod.fst ∧ (rest.map Prod.fst).Nodup := by
      rw [List.map_cons, List.nodup_cons] at hnd
      exact hnd
    rcases List.mem_cons.mp hmem with heq | hrest
    · have hid : id = d.1 := by rw [← heq]
      have hnotin : id ∉ rest.map Prod.fst := by
        rw [hid]
        exact hnd2.1
      rw [foldIndex_lengths_notmem rest (indexStep st d) id hnotin]
      show (if id = d.1 then some (tokenize d.2).length else _) = _
      rw [if_pos hid, ← heq]
    · exact ih (indexStep st d) id txt hnd2.2 hrest

/-- `IndexDocuments` sets the corpus size to the batch size. -/
theorem indexDocuments_count (bm : BM25Scorer)
    (docs : List (String × String)) :
    (indexDocuments bm docs).documentCount = docs.length := by
  unfold indexDocuments
  simp only [apply_ite BM25Scorer.documentCount, foldIndex_documentCount]
  simp

/-- `IndexDocuments` replaces the document map wholesale. -/
theorem indexDocuments_documents (bm : BM25Scorer)
    (docs : List (String × String)) :
    (indexDocuments bm docs).documents = docs := by
  unfold indexDocuments
  simp only [apply_ite BM25Scorer.documents, foldIndex_documents]
  simp

/-- `IndexDocuments` keeps `k1`. -/
theorem indexDocuments_k1 (bm : BM25Scorer)
    (docs : List (String × String)) :
    (indexDocuments bm docs).k1 = bm.k1 := by
  unfold indexDocuments
  simp only [apply_ite BM25Scorer.k1, foldIndex_k1]
  simp

/-- `IndexDocuments` keeps `b`. -/
theorem indexDocuments_b (bm : BM25Scorer)
    (docs : List (String × String)) :
    (indexDocuments bm docs).b = bm.b := by
  unfold indexDocuments
  simp only [apply_ite BM25Scorer.b, foldIndex_b]
  simp

/-- `IndexDocuments` ADDS the batch's per-document counts to the stored
term document frequencies — the map is not reset. -/
theorem indexDocuments_termDocFreq (bm : BM25Scorer)
    (docs : List (String × String)) (t : String) :
    (indexDocuments bm docs).termDocFreq t =
      bm.termDocFreq t + docs.countP (fun d => decide (t ∈ tokenize d.2)) := by
  unfold indexDocuments
  simp only [apply_ite (fun s => BM25Scorer.termDocFreq s t),
    foldIndex_termDocFreq]
  simp

/-- `IndexDocuments` records each batch document's token length (batch
keys distinct). -/
theorem indexDocuments_lengths (bm : BM25Scorer)
    (docs : List (String × String)) (id txt : String)
    (hnd : (docs.map Prod.fst).Nodup) (hmem : (id, txt) ∈ docs) :
    (indexDocuments bm docs).documentLengths id =
      some (tokenize txt).length := by
  unfold indexDocuments
  simp only [apply_ite (fun s => BM25Scorer.documentLengths s id)]
  simp only [foldIndex_lengths_mem docs _ id txt hnd hmem]
  simp

/-- `IndexDocuments` recomputes the average length from the new batch
alone (or keeps the stale value for an empty batch). -/
theorem indexDocuments_avg (bm : BM25Scorer)
    (docs : List (String × String)) :
    (indexDocuments bm docs).avgDocLength =
      if 0 < docs.length then
        ((docs.map (fun d => (tokenize d.2).length)).sum : ℚ) /
          (docs.length : ℚ)
      else bm.avgDocLength := by
  unfold indexDocuments
  simp only [apply_ite BM25Scorer.avgDocLength, foldIndex_documentCount,
    foldIndex_snd, foldIndex_avgDocLength]
  simp

/-- C3 (amended): at the end of an `index_documents` call on a FRESH
scorer (no earlier call), the statistics are a full rebuild consistent
with the indexed documents: the corpus size, the stored document map,
every indexed document's token length, every term's document frequency,
and the average document length all equal the values computed from
scratch.  (The unamended claim — consistency after a second or later
call on the same scorer — is refuted by the counterexample: the Go code
never resets `termDocFreq` or `documentLengths`, so document-frequency
residue accumulates across calls.) -/
theorem c3_rebuild_consistent_on_fresh_scorer (k1 b : ℚ)
    (docs : List (String × String)) (hnd : (docs.map Prod.fst).Nodup) :
    (rebuiltScorer k1 b docs).documentCount = docs.length ∧
    (rebuiltScorer k1 b docs).documents = docs ∧
    (∀ id txt, (id, txt) ∈ docs →
      (rebuiltScorer k1 b docs).documentLengths id =
        some (tokenize txt).length) ∧
    (∀ t, (rebuiltScorer k1 b docs).termDocFreq t = dfSpec docs t) ∧
    (rebuiltScorer k1 b docs).avgDocLength = avgSpec docs := by
  refine ⟨indexDocuments_count _ _, indexDocuments_documents _ _,
    fun id txt hmem => indexDocuments_lengths _ _ id txt hnd hmem,
    fun t => ?_, ?_⟩
  · rw [rebuiltScorer, indexDocuments_termDocFreq]
    simp [newBM25Scorer, dfSpec]
  · rw [rebuiltScorer, indexDocuments_avg]
    cases docs with
    | nil => simp [avgSpec, newBM25Scorer]
    | cons d rest => simp [avgSpec]

/-- C3 (counterexample): indexing `{d1: "a"}` twice on the same scorer
leaves `termDocFreq("a") = 2`, while the from-scratch document frequency
over the current document set is 1 — residue from the earlier call.
This refutes consistency at the end of a second `index_documents` call. -/
theorem c3_counterexample :
    (indexDocuments (rebuiltScorer (3/2) (3/4) [("d1", "a")])
      [("d1", "a")]).termDocFreq "a" = 2 ∧
    dfSpec [("d1", "a")] "a" = 1 ∧ (2 : Nat) ≠ 1 := by
  refine ⟨?_, by with_unfolding_all decide, by decide⟩
  with_unfolding_all decide

/-- Witness for C3 (amended) at a concrete two-document corpus. -/
theorem c3_rebuild_consistent_witness :
    (([("d1", "alice works"), ("d2", "works")] :
        List (String × String)).map Prod.fst).Nodup ∧
    (rebuiltScorer (3/2) (3/4)
      [("d1", "alice works"), ("d2", "works")]).termDocFreq "works" =
      dfSpec [("d1", "alice works"), ("d2", "works")] "works" :=
  ⟨by decide,
    (c3_rebuild_consistent_on_fresh_scorer (3/2) (3/4)
      [("d1", "alice works"), ("d2", "works")] (by decide)).2.2.2.1 "works"⟩

/-- A group's emitted canonical fact carries the hash of its own merged
fact as id. -/
theorem consolidateGroup_id (cfg : ConsolidationConfig) (now : Int)
    (conts : List Edge) (g : List RawAssertion) (cf : CanonicalFact)
    (h : consolidateGroup cfg now conts g = some cf) :
    cf.id = (sha256hex (strBytes (canonJsonFact cf.mergedFact))).take 16 := by
  unfold consolidateGroup at h
  cases hv : g.filter (fun a => !(isContradicted cfg now conts a.id)) with
  | nil =>
    rw [hv] at h
    simp at h
  | cons v vs =>
    rw [hv] at h
    rw [Option.some_inj] at h
    subst h
    dsimp only
    simp only [generateCanonicalID]

/-- C1: an assertion added with an empty id is stored under the first 16
hex characters of SHA-256 over `canonical_json(fact) || source`; every
canonical fact written by `Consolidate` has as id the first 16 hex
characters of SHA-256 over the canonical JSON of its own merged fact
(the top-ranked surviving contributor's fact); hence canonical facts
with the same merged fact — from any two consolidation runs — share one
canonical id. -/
theorem c1_deterministic_ids :
    (∀ (now : Int) (a : RawAssertion), a.id = "" →
      (addStored now a).id =
        (sha256hex (strBytes (canonJsonFact a.fact ++ a.source))).take 16) ∧
    (∀ cfg now as conts (cf : CanonicalFact),
      cf ∈ consolidate cfg now as conts →
      cf.id = (sha256hex (strBytes (canonJsonFact cf.mergedFact))).take 16) ∧
    (∀ cfg now as conts cfg2 now2 as2 conts2 (cf cf2 : CanonicalFact),
      cf ∈ consolidate cfg now as conts →
      cf2 ∈ consolidate cfg2 now2 as2 conts2 →
      cf.mergedFact = cf2.mergedFact → cf.id = cf2.id) := by
  have part2 : ∀ cfg now as conts (cf : CanonicalFact),
      cf ∈ consolidate cfg now as conts →
      cf.id = (sha256hex (strBytes (canonJsonFact cf.mergedFact))).take 16 := by
    intro cfg now as conts cf h
    rcases List.mem_filterMap.mp h with ⟨k, _, hsome⟩
    exact consolidateGroup_id cfg now conts _ cf hsome
  refine ⟨?_, part2, ?_⟩
  · intro now a h
    simp [addStored, h, generateAssertionID]
  · intro cfg now as conts cfg2 now2 as2 conts2 cf cf2 h1 h2 hmf
    rw [part2 cfg now as conts cf h1, part2 cfg2 now2 as2 conts2 cf2 h2, hmf]

set_option maxHeartbeats 4000000 in
/-- Witness for C1: adding `c1assert` (empty id) and consolidating
Scenario A's three corroborating assertions. -/
theorem c1_deterministic_ids_witness :
    c1assert.id = "" ∧
    (addStored 0 c1assert).id =
      (sha256hex (strBytes
        (canonJsonFact c1assert.fact ++ c1assert.source))).take 16 ∧
    c1canon ∈ consolidate defaultConsolidationConfig 200 c4list [] ∧
    c1canon.id =
      (sha256hex (strBytes (canonJsonFact c1canon.mergedFact))).take 16 := by
  have hmem : c1canon ∈ consolidate defaultConsolidationConfig 200 c4list []
      := by
    with_unfolding_all decide
  exact ⟨rfl, c1_deterministic_ids.1 0 c1assert rfl, hmem,
    c1_deterministic_ids.2.1 defaultConsolidationConfig 200 c4list [] c1canon
      hmem⟩

/-- Witness for C5 (amended) at the tie fixture. -/
theorem c5_sort_determines_merge_witness :
    (∀ a ∈ [c5a, c5b], a.fact = factAlice) ∧
    SortOutcome [c5a, c5b] [c5a, c5b] ∧
    SortOutcome [c5a, c5b] [c5b, c5a] ∧
    mergeConfidence [c5a, c5b] = mergeConfidence [c5b, c5a] := by
  have hf : ∀ a ∈ [c5a, c5b], a.fact = factAlice := by
    with_unfolding_all decide
  have hba : assertLess c5b c5a = false := by
    with_unfolding_all decide
  have hab : assertLess c5a c5b = false := by
    with_unfolding_all decide
  have h1 : SortOutcome [c5a, c5b] [c5a, c5b] :=
    ⟨List.Perm.refl _, by simp [hba]⟩
  have h2 : SortOutcome [c5a, c5b] [c5b, c5a] :=
    ⟨List.Perm.swap _ _ _, by simp [hab]⟩
  exact ⟨hf, h1, h2, (c5_sort_determines_merge hf h1 h2).2.1⟩

/-- The descending-by-score comparator is transitive. -/
theorem scoreLe_trans {α : Type} (a b c : α × ℚ)
    (hab : decide (b.2 ≤ a.2) = true) (hbc : decide (c.2 ≤ b.2) = true) :
    decide (c.2 ≤ a.2) = true := by
  simp only [decide_eq_true_eq] at *
  exact le_trans hbc hab

/-- The descending-by-score comparator is total. -/
theorem scoreLe_total {α : Type} (a b : α × ℚ) :
    (decide (b.2 ≤ a.2) || decide (a.2 ≤ b.2)) = true := by
  simp only [Bool.or_eq_true, decide_eq_true_eq]
  exact le_total _ _

/-- In a descending list with pairwise-distinct scores and keys, the
position of an entry is the number of strictly greater scores. -/
theorem findIdx_sorted_count (s : List (String × ℚ)) :
    ∀ (i : Nat) (id : String) (v : ℚ),
      s.Pairwise (fun a b => b.2 ≤ a.2) → (s.map Prod.fst).Nodup →
      (s.map Prod.snd).Nodup → (id, v) ∈ s →
      s.findIdx? (fun p => p.1 == id) i =
        some (i + s.countP (fun p => decide (v < p.2))) := by
  induction s with
  | nil => intro i id v _ _ _ h; simp at h
  | cons p rest ih =>
    intro i id v hsort hfst hsnd hmem
    have hhead : ∀ y ∈ rest, y.2 ≤ p.2 := by
      intro y hy
      exact (List.pairwise_cons.mp hsort).1 y hy
    have hsndhead : p.2 ∉ rest.map Prod.snd := by
      rw [List.map_cons, List.nodup_cons] at hsnd
      exact hsnd.1
    by_cases hid : p.1 = id
    · have hvp : v = p.2 := by
        rcases List.mem_cons.mp hmem with heq | hrest
        · rw [← heq]
        · exfalso
          rw [List.map_cons, List.nodup_cons] at hfst
          exact hfst.1 (hid ▸ (List.mem_map.mpr ⟨(id, v), hrest, rfl⟩))
      rw [List.findIdx?_cons, if_pos (by simpa using hid)]
      have hcnt : (p :: rest).countP (fun q => decide (v < q.2)) = 0 := by
        rw [List.countP_eq_zero]
        intro y hy
        rcases List.mem_cons.mp hy with heq | hyrest
        · simp [heq, hvp]
        · have h1 : y.2 ≤ p.2 := hhead y hyrest
          have h2 : y.2 ≠ p.2 := by
            intro hcontra
            exact hsndhead (List.mem_map.mpr ⟨y, hyrest, hcontra⟩)
          simp only [decide_eq_true_eq, not_lt, hvp]
          exact le_of_lt (lt_of_le_of_ne h1 h2)
      rw [hcnt]
      simp
    · have hrest : (id, v) ∈ rest := by
        rcases List.mem_cons.mp hmem with heq | hr
        · exact absurd (by rw [← heq] : p.1 = id) hid
        · exact hr
      have hvlt : v < p.2 := by
        have h1 : v ≤ p.2 := hhead (id, v) hrest
        have h2 : v ≠ p.2 := by
          intro hcontra
          exact hsndhead (List.mem_map.mpr ⟨(id, v), hrest, hcontra⟩)
        exact lt_of_le_of_ne h1 h2
      rw [List.findIdx?_cons, if_neg (by simpa using hid)]
      rw [List.map_cons, List.nodup_cons] at hfst hsnd
      rw [ih (i + 1) id v (List.pairwise_cons.mp hsort).2 hfst.2 hsnd.2 hrest]
      rw [List.countP_cons]
      rw [if_pos (by simpa using hvlt)]
      simp only [Option.some.injEq]
      omega

/-- 1-based rank equals one plus the number of strictly greater scores
(streams with distinct keys and distinct scores). -/
theorem rankScores_eq (l : List (String × ℚ)) (id : String) (v : ℚ)
    (hfst : (l.map Prod.fst).Nodup) (hsnd : (l.map Prod.snd).Nodup)
    (hmem : (id, v) ∈ l) :
    rankScores l id = 1 + l.countP (fun p => decide (v < p.2)) := by
  unfold rankScores
  have hperm : (l.mergeSort (fun a b => decide (b.2 ≤ a.2))).Perm l :=
    List.mergeSort_perm l _
  have hsort : (l.mergeSort (fun a b => decide (b.2 ≤ a.2))).Pairwise
      (fun a b : String × ℚ => b.2 ≤ a.2) :=
    (List.sorted_mergeSort (fun a b c => scoreLe_trans a b c)
      (fun a b => scoreLe_total a b) l).imp (fun h => of_decide_eq_true h)
  have hfst' := (hperm.map Prod.fst).nodup_iff.mpr hfst
  have hsnd' := (hperm.map Prod.snd).nodup_iff.mpr hsnd
  have hmem' := hperm.mem_iff.mpr hmem
  rw [findIdx_sorted_count _ 0 id v hsort hfst' hsnd' hmem']
  rw [hperm.countP_eq]
  dsimp only
  omega

/-- RRF combined-score formula with explicit 1-based ranks. -/
theorem rrfCombined_eq (lw sw : ℚ) (kk : Int)
    (lex sem : List (String × ℚ)) (id : String) (lv sv : ℚ)
    (hlf : (lex.map Prod.fst).Nodup) (hls : (lex.map Prod.snd).Nodup)
    (hsf : (sem.map Prod.fst).Nodup) (hss : (sem.map Prod.snd).Nodup)
    (hml : (id, lv) ∈ lex) (hms : (id, sv) ∈ sem) :
    rrfCombined lw sw kk lex sem id =
      lw / ((kk : ℚ) +
        ((1 + lex.countP (fun p => decide (lv < p.2)) : Nat) : ℚ)) +
      sw / ((kk : ℚ) +
        ((1 + sem.countP (fun p => decide (sv < p.2)) : Nat) : ℚ)) := by
  unfold rrfCombined
  rw [if_pos]
  · rw [rankScores_eq lex id lv hlf hls hml, rankScores_eq sem id sv hsf hss
      hms]
  · simp only [Bool.or_eq_true, List.any_eq_true]
    exact Or.inl ⟨(id, lv), hml, by simp⟩

/-- Every returned document passed the pre-filter. -/
theorem retrieveCore_allowed (cfg : RetrievalConfig) (docs : List Doc)
    (allowed : Doc → Bool) (lexF semF : Doc → ℚ) (d : Doc) (s : ℚ)
    (h : (d, s) ∈ retrieveCore cfg docs allowed lexF semF) :
    allowed d = true := by
  simp only [retrieveCore] at h
  by_cases hemp : (docs.filter allowed).isEmpty
  · rw [if_pos hemp] at h
    simp at h
  · rw [if_neg hemp] at h
    have h1 := List.mem_of_mem_take h
    have h2 := (List.mergeSort_perm _ _).subset h1
    rcases List.mem_map.mp h2 with ⟨d', hd', heq⟩
    have hd : d' = d := congrArg Prod.fst heq
    exact (List.mem_filter.mp (hd ▸ hd')).2

/-- The returned list is sorted by combined score descending and is no
longer than the limit. -/
theorem retrieveCore_sorted_limited (cfg : RetrievalConfig)
    (docs : List Doc) (allowed : Doc → Bool) (lexF semF : Doc → ℚ) :
    (retrieveCore cfg docs allowed lexF semF).Pairwise
      (fun x y => y.2 ≤ x.2) ∧
    (retrieveCore cfg docs allowed lexF semF).length ≤ cfg.limit.toNat := by
  rw [retrieveCore]
  by_cases hemp : (docs.filter allowed).isEmpty
  · rw [if_pos hemp]
    exact ⟨List.Pairwise.nil, by simp⟩
  · rw [if_neg hemp]
    constructor
    · refine List.Pairwise.sublist (List.take_sublist _ _) ?_
      exact (List.sorted_mergeSort (fun a b c => scoreLe_trans a b c)
        (fun a b => scoreLe_total a b) _).imp (fun h => of_decide_eq_true h)
    · rw [List.length_take]
      omega

/-- C7 (counterexample): on Scenario E (lexical ranking d1, d2, d3;
semantic ranking d3, d2, d1; weights 0.5/0.5; k = 60) the combined
scores are d1 = d3 = 0.5/61 + 0.5/63 = 62/3843 and d2 = 1/62, and
1/62 < 62/3843 (the reciprocal-rank term is strictly convex in the
rank), so the first document `retrieve` returns is d1 or d3 — never d2.
This refutes "document d2 is returned first". -/
theorem c7_counterexample :
    rrfCombined (1/2) (1/2) 60 c7lex c7sem "d1" = 62/3843 ∧
    rrfCombined (1/2) (1/2) 60 c7lex c7sem "d2" = 1/62 ∧
    rrfCombined (1/2) (1/2) 60 c7lex c7sem "d3" = 62/3843 ∧
    (1/62 : ℚ) < 62/3843 ∧
    ((retrieveCore c7cfg c7docs (fun _ => true) c7lexF c7semF).head?.map
      (fun p => p.1.id)) ≠ some "d2" := by
  have hl1 : rankScores c7lex "d1" = 1 := by with_unfolding_all decide
  have hl2 : rankScores c7lex "d2" = 2 := by with_unfolding_all decide
  have hl3 : rankScores c7lex "d3" = 3 := by with_unfolding_all decide
  have hs1 : rankScores c7sem "d1" = 3 := by with_unfolding_all decide
  have hs2 : rankScores c7sem "d2" = 2 := by with_unfolding_all decide
  have hs3 : rankScores c7sem "d3" = 1 := by with_unfolding_all decide
  have hany1 : (c7lex.any (fun p => p.1 == "d1") ||
      c7sem.any (fun p => p.1 == "d1")) = true := by decide
  have hany2 : (c7lex.any (fun p => p.1 == "d2") ||
      c7sem.any (fun p => p.1 == "d2")) = true := by decide
  have hany3 : (c7lex.any (fun p => p.1 == "d3") ||
      c7sem.any (fun p => p.1 == "d3")) = true := by decide
  have e1 : rrfCombined (1/2) (1/2) 60 c7lex c7sem "d1" = 62/3843 := by
    simp only [rrfCombined, hl1, hs1, hany1, if_true]
    norm_num
  have e2 : rrfCombined (1/2) (1/2) 60 c7lex c7sem "d2" = 1/62 := by
    simp only [rrfCombined, hl2, hs2, hany2, if_true]
    norm_num
  have e3 : rrfCombined (1/2) (1/2) 60 c7lex c7sem "d3" = 62/3843 := by
    simp only [rrfCombined, hl3, hs3, hany3, if_true]
    norm_num
  refine ⟨e1, e2, e3, by norm_num, ?_⟩
  have hfilter : c7docs.filter (fun _ => true) = c7docs := by decide
  have hlex : c7docs.map (fun d => (d.id, c7lexF d)) = c7lex := by
    with_unfolding_all decide
  have hsem : c7docs.filterMap
      (fun d => (d.text).map (fun _ => (d.id, c7semF d))) = c7sem := by
    with_unfolding_all decide
  have hw1 : c7cfg.lexicalWeight = 1/2 := rfl
  have hw2 : c7cfg.semanticWeight = 1/2 := rfl
  have hw3 : c7cfg.rrfConstant = 60 := rfl
  have hscored : c7docs.map
      (fun d => (d, rrfCombined (1/2) (1/2) 60 c7lex c7sem d.id)) =
      [({ id := "d1", text := some "x" }, (62/3843 : ℚ)),
       ({ id := "d2", text := some "y" }, (1/62 : ℚ)),
       ({ id := "d3", text := some "z" }, (62/3843 : ℚ))] := by
    simp only [c7docs, List.map_cons, List.map_nil]
    rw [e1, e2, e3]
  rw [retrieveCore, hfilter, show c7docs.isEmpty = false from rfl]
  simp only [hlex, hsem, hw1, hw2, hw3, Bool.false_eq_true, if_false]
  rw [hscored]
  set sl : List (Doc × ℚ) :=
    [({ id := "d1", text := some "x" }, (62/3843 : ℚ)),
     ({ id := "d2", text := some "y" }, (1/62 : ℚ)),
     ({ id := "d3", text := some "z" }, (62/3843 : ℚ))] with hsl
  set s := sl.mergeSort (fun a b => decide (b.2 ≤ a.2)) with hsdef
  have hperm : s.Perm sl := List.mergeSort_perm sl _
  have hlen : s.length = 3 := by rw [hperm.length_eq]; rfl
  have hsorted : s.Pairwise (fun a b : Doc × ℚ => b.2 ≤ a.2) :=
    (List.sorted_mergeSort (fun a b c => scoreLe_trans a b c)
      (fun a b => scoreLe_total a b) sl).imp (fun h => of_decide_eq_true h)
  have htake : s.take (min (c7cfg.limit.toNat) s.length) = s := by
    rw [show c7cfg.limit.toNat = 10 from rfl, hlen]
    rw [show min (10 : Nat) 3 = 3 from rfl]
    rw [← hlen]
    exact List.take_length s
  rw [htake]
  cases hs_eq : s with
  | nil => rw [hs_eq] at hlen; simp at hlen
  | cons hd t =>
    rw [hs_eq] at hsorted
    simp only [List.head?_cons, Option.map_some']
    have hmemh : hd ∈ sl := hperm.subset (hs_eq ▸ List.mem_cons_self hd t)
    have hp1mem : ({ id := "d1", text := some "x" }, (62/3843 : ℚ)) ∈ s :=
      hperm.mem_iff.mpr (List.mem_cons_self _ _)
    rw [hs_eq] at hp1mem
    rw [hsl] at hmemh
    simp only [List.mem_cons, List.not_mem_nil, or_false] at hmemh
    rcases hmemh with h1 | h2 | h3
    · rw [h1]
      decide
    · exfalso
      rcases List.mem_cons.mp hp1mem with he | ht
      · rw [h2] at he
        simp [Prod.ext_iff, Doc.mk.injEq] at he
      · have hle := (List.pairwise_cons.mp hsorted).1 _ ht
        rw [h2] at hle
        norm_num at hle
    · rw [h3]
      decide
/-- C7 (amended): with 1-based ranks assigned per stream by score
descending (ties excluded by distinctness), each candidate's combined
score is `lexical_weight/(k + rank_L) + semantic_weight/(k + rank_S)` —
the weight multiplies the reciprocal-rank term — and `retrieve` returns
documents sorted by combined score descending, truncated to `limit`.
In Scenario E, however, d2 is returned last, not first: d1 and d3 tie
for the best combined score (see the counterexample). -/
theorem c7_rrf_formula_and_order (lw sw : ℚ) (kk : Int)
    (lex sem : List (String × ℚ)) (id : String) (lv sv : ℚ)
    (cfg : RetrievalConfig) (docs : List Doc) (allowed : Doc → Bool)
    (lexF semF : Doc → ℚ)
    (hlf : (lex.map Prod.fst).Nodup) (hls : (lex.map Prod.snd).Nodup)
    (hsf : (sem.map Prod.fst).Nodup) (hss : (sem.map Prod.snd).Nodup)
    (hml : (id, lv) ∈ lex) (hms : (id, sv) ∈ sem) :
    rrfCombined lw sw kk lex sem id =
      lw / ((kk : ℚ) +
        ((1 + lex.countP (fun p => decide (lv < p.2)) : Nat) : ℚ)) +
      sw / ((kk : ℚ) +
        ((1 + sem.countP (fun p => decide (sv < p.2)) : Nat) : ℚ)) ∧
    (retrieveCore cfg docs allowed lexF semF).Pairwise
      (fun x y => y.2 ≤ x.2) ∧
    (retrieveCore cfg docs allowed lexF semF).length ≤ cfg.limit.toNat :=
  ⟨rrfCombined_eq lw sw kk lex sem id lv sv hlf hls hsf hss hml hms,
    (retrieveCore_sorted_limited cfg docs allowed lexF semF).1,
    (retrieveCore_sorted_limited cfg docs allowed lexF semF).2⟩

/-- Witness for C7 (amended) on Scenario E's streams at d1. -/
theorem c7_rrf_formula_witness :
    ((c7lex.map Prod.fst).Nodup ∧ (c7lex.map Prod.snd).Nodup ∧
     (c7sem.map Prod.fst).Nodup ∧ (c7sem.map Prod.snd).Nodup ∧
     ("d1", (3 : ℚ)) ∈ c7lex ∧ ("d1", (1 : ℚ)) ∈ c7sem) ∧
    rrfCombined (1/2) (1/2) 60 c7lex c7sem "d1" =
      (1/2 : ℚ) / ((60 : Int) +
        ((1 + c7lex.countP (fun p => decide ((3 : ℚ) < p.2)) : Nat) : ℚ)) +
      (1/2 : ℚ) / ((60 : Int) +
        ((1 + c7sem.countP (fun p => decide ((1 : ℚ) < p.2)) : Nat) : ℚ)) := by
  have h1 : (c7lex.map Prod.fst).Nodup := by decide
  have h2 : (c7lex.map Prod.snd).Nodup := by with_unfolding_all decide
  have h3 : (c7sem.map Prod.fst).Nodup := by decide
  have h4 : (c7sem.map Prod.snd).Nodup := by with_unfolding_all decide
  have h5 : ("d1", (3 : ℚ)) ∈ c7lex := by with_unfolding_all decide
  have h6 : ("d1", (1 : ℚ)) ∈ c7sem := by with_unfolding_all decide
  exact ⟨⟨h1, h2, h3, h4, h5, h6⟩,
    (c7_rrf_formula_and_order (1/2) (1/2) 60 c7lex c7sem "d1" 3 1
      c7cfg c7docs (fun _ => true) c7lexF c7semF h1 h2 h3 h4 h5 h6).1⟩

/-- C8: no document rejected by the pre-filter ever appears in the
output of `retrieve`, regardless of its scores; and when the predicate
rejects every stored document, `retrieve` returns the empty sequence
(with a nil error — the embedding is total). -/
theorem c8_prefilter_soundness (cfg : RetrievalConfig) (docs : List Doc)
    (allowed : Doc → Bool) (lexF semF : Doc → ℚ) :
    (∀ (d : Doc) (s : ℚ), (d, s) ∈ retrieveCore cfg docs allowed lexF semF →
      allowed d = true) ∧
    ((∀ d ∈ docs, allowed d = false) →
      retrieveCore cfg docs allowed lexF semF = []) := by
  constructor
  · intro d s h
    exact retrieveCore_allowed cfg docs allowed lexF semF d s h
  · intro hall
    have hnil : docs.filter allowed = [] := by
      rw [List.filter_eq_nil_iff]
      intro d hd
      simp [hall d hd]
    rw [retrieveCore, if_pos (by rw [hnil]; rfl)]

/-- Witness for C8: a singleton corpus with an all-accepting filter (the
returned document passed the filter), and an all-rejecting filter
(empty output). -/
theorem c8_prefilter_soundness_witness :
    (fun _ : Doc => true) { id := "d1", text := some "x" } = true ∧
    retrieveCore defaultRetrievalConfig [{ id := "d1", text := some "x" }]
      (fun _ => false) (fun _ => 0) (fun _ => 0) = [] := by
  constructor
  · exact (c8_prefilter_soundness defaultRetrievalConfig
      [{ id := "d1", text := some "x" }] (fun _ => true) (fun _ => 1)
      (fun _ => 1)).1 { id := "d1", text := some "x" } ((1 : ℚ)/61)
      (by with_unfolding_all decide)
  · exact (c8_prefilter_soundness defaultRetrievalConfig
      [{ id := "d1", text := some "x" }] (fun _ => false) (fun _ => 0)
      (fun _ => 0)).2 (by decide)

/-- First-match lookup returns the unique entry under distinct keys. -/
theorem lookupDoc_eq (docs : List (String × String)) (id txt : String)
    (hnd : (docs.map Prod.fst).Nodup) (hmem : (id, txt) ∈ docs) :
    lookupDoc docs id = some txt := by
  induction docs with
  | nil => simp at hmem
  | cons d rest ih =>
    rw [List.map_cons, List.nodup_cons] at hnd
    rcases List.mem_cons.mp hmem with heq | hrest
    · rw [← heq]
      simp [lookupDoc, List.find?]
    · by_cases hd : d.1 = id
      · exfalso
        exact hnd.1 (hd ▸ List.mem_map.mpr ⟨(id, txt), hrest, rfl⟩)
      · unfold lookupDoc at ih ⊢
        have hbeq : (d.1 == id) = false := by simpa using hd
        rw [List.find?_cons, hbeq]
        exact ih hnd.2 hrest

/-- The rebuilt scorer's document frequencies are the from-scratch ones. -/
theorem rebuiltScorer_termDocFreq (k1 b : ℚ)
    (docs : List (String × String)) (t : String) :
    (rebuiltScorer k1 b docs).termDocFreq t = dfSpec docs t := by
  rw [rebuiltScorer, indexDocuments_termDocFreq]
  simp [newBM25Scorer, dfSpec]

/-- The rebuilt scorer's average length is the from-scratch one. -/
theorem rebuiltScorer_avg (k1 b : ℚ) (docs : List (String × String)) :
    (rebuiltScorer k1 b docs).avgDocLength = avgSpec docs := by
  rw [rebuiltScorer, indexDocuments_avg]
  cases docs with
  | nil => simp [avgSpec, newBM25Scorer]
  | cons d rest => simp [avgSpec]

/-- A term absent from every indexed document does not occur in an
indexed document's token list. -/
theorem dfSpec_zero_count (docs : List (String × String))
    (id txt : String) (hmem : (id, txt) ∈ docs) (t : String)
    (h : dfSpec docs t = 0) : (tokenize txt).count t = 0 := by
  rw [List.count_eq_zero]
  intro hcontra
  have := List.countP_eq_zero.mp h (id, txt) hmem
  simp at this
  exact this hcontra

/-- The spec-side contribution vanishes on zero document frequency. -/
theorem specContrib_zero_df (docs : List (String × String))
    (id txt : String) (hmem : (id, txt) ∈ docs) (t : String)
    (h : dfSpec docs t = 0) : specContrib docs txt t = 0 := by
  unfold specContrib
  rw [dfSpec_zero_count docs id txt hmem t h]
  simp

/-- The spec-side contribution is non-negative. -/
theorem specContrib_nonneg (docs : List (String × String)) (txt t : String) :
    0 ≤ specContrib docs txt t := by
  unfold specContrib
  apply mul_nonneg
  · apply Real.log_nonneg
    have hdf : (dfSpec docs t : ℝ) ≤ (docs.length : ℝ) := by
      exact_mod_cast List.countP_le_length _
    have hnum : (0 : ℝ) ≤ (docs.length : ℝ) - (dfSpec docs t : ℝ) + 1/2 :=
      by linarith
    have hden : (0 : ℝ) ≤ (dfSpec docs t : ℝ) + 1/2 := by positivity
    linarith [div_nonneg hnum hden]
  · apply div_nonneg
    · positivity
    · have havg : (0 : ℝ) ≤ ((avgSpec docs : ℚ) : ℝ) := by
        have h0 : (0 : ℚ) ≤ avgSpec docs := by
          unfold avgSpec
          positivity
        exact_mod_cast h0
      have hdl : (0 : ℝ) ≤ ((tokenize txt).length : ℝ) := by positivity
      have hq := div_nonneg hdl havg
      have htf : (0 : ℝ) ≤ ((tokenize txt).count t : ℝ) := by positivity
      linarith

/-- One scorer-side term contribution coincides with the claim's
formula. -/
theorem scoreTerm_eq_specContrib (docs : List (String × String))
    (id txt : String) (hmem : (id, txt) ∈ docs) (t : String) :
    scoreTerm (rebuiltScorer (3/2) (3/4) docs)
      (fun u => (tokenize txt).count u)
      ((tokenize txt).length : ℚ) t = specContrib docs txt t := by
  unfold scoreTerm
  rw [rebuiltScorer_termDocFreq,
    show (rebuiltScorer (3/2) (3/4) docs).documentCount = docs.length from
      indexDocuments_count _ _,
    rebuiltScorer_avg,
    show (rebuiltScorer (3/2) (3/4) docs).k1 = 3/2 from by
      rw [rebuiltScorer, indexDocuments_k1]; rfl,
    show (rebuiltScorer (3/2) (3/4) docs).b = 3/4 from by
      rw [rebuiltScorer, indexDocuments_b]; rfl]
  by_cases hdf0 : ((dfSpec docs t : ℚ)) = 0
  · rw [if_pos hdf0]
    have h0 : dfSpec docs t = 0 := by exact_mod_cast hdf0
    exact (specContrib_zero_df docs id txt hmem t h0).symm
  · rw [if_neg hdf0]
    unfold specContrib
    push_cast
    ring_nf

/-- C6: for every query and every document indexed by a (fresh, single)
`index_documents` call, the BM25 score equals the sum over query tokens
of `idf(t)·tf·(k1+1)/(tf + k1·(1−b+b·|d|/avg))` with `k1 = 1.5`,
`b = 0.75`, `idf(t) = ln((N−df+0.5)/(df+0.5)+1)`; a token with zero
document frequency contributes exactly zero (its `tf` in an indexed
document is necessarily zero as well), and every term's contribution is
non-negative. -/
theorem c6_bm25_score_formula (docs : List (String × String))
    (hnd : (docs.map Prod.fst).Nodup) (id txt : String)
    (hmem : (id, txt) ∈ docs) (q : String) :
    score (rebuiltScorer (3/2) (3/4) docs) q id =
      ((tokenize q).map (specContrib docs txt)).sum ∧
    (∀ t, dfSpec docs t = 0 → specContrib docs txt t = 0) ∧
    (∀ t, 0 ≤ specContrib docs txt t) := by
  refine ⟨?_, fun t h => specContrib_zero_df docs id txt hmem t h,
    fun t => specContrib_nonneg docs txt t⟩
  unfold score
  rw [show (rebuiltScorer (3/2) (3/4) docs).documents = docs from
      indexDocuments_documents _ _,
    lookupDoc_eq docs id txt hnd hmem]
  rw [show (rebuiltScorer (3/2) (3/4) docs).documentLengths id =
      some (tokenize txt).length from
      indexDocuments_lengths _ docs id txt hnd hmem]
  simp only [Option.getD_some]
  have hfun : scoreTerm (rebuiltScorer (3/2) (3/4) docs)
      (fun u => (tokenize txt).count u) ((tokenize txt).length : ℚ) =
      specContrib docs txt :=
    funext (fun t => scoreTerm_eq_specContrib docs id txt hmem t)
  rw [hfun]

/-- Witness for C6: a single-document corpus (Scenario D) and the query
`"alice"`. -/
theorem c6_bm25_score_formula_witness :
    (([("d1", "alice works at techcorp")] :
        List (String × String)).map Prod.fst).Nodup ∧
    ("d1", "alice works at techcorp") ∈
      ([("d1", "alice works at techcorp")] : List (String × String)) ∧
    score (rebuiltScorer (3/2) (3/4) [("d1", "alice works at techcorp")])
        "alice" "d1" =
      ((tokenize "alice").map
        (specContrib [("d1", "alice works at techcorp")]
          "alice works at techcorp")).sum :=
  ⟨by decide, by decide,
    (c6_bm25_score_formula [("d1", "alice works at techcorp")] (by decide)
      "d1" "alice works at techcorp" (by decide) "alice").1⟩

/-- C10: whenever the KV `Get` inside `Explain` fails — with any error
value, storage-level failures included — `Explain` returns the sentinel
`{evidence_count: 0, sources: [], confidence: 0}` with a nil error; the
read error is never propagated. -/
theorem c10_explain_swallows_get_errors :
    ∀ (e : String) (decode : List Nat → Except String CanonicalFact),
      explain (Except.error e) decode =
        Except.ok { evidenceCount := 0, sources := [], confidence := 0 } :=
  fun _ _ => rfl

end Sochdb
